import Mathlib

/-!
Verification of the raster-printing core of `print_raster.py`.

The Python code is shallowly embedded: byte buffers (`bytes`, `memoryview`
slices) become `List Int` whose elements are the integers Python iteration
yields (0..255 for genuine byte buffers), Python integers become `Int`,
and the stateful serial write loop of `send_raster` becomes an explicit
fuel-indexed step function driven by an oracle giving the result of each
`ser.write` call on a payload chunk.
-/

/-- Pixel dimensions of the 1-bit PIL image handed to `build_raster_bands`
(`img1.width`, `img1.height`). -/
structure Img1 where
  width : Nat
  height : Nat
deriving DecidableEq, Repr

/-- Python slicing `buf[start:stop]` for the non-negative indices used by
`iter_bands` (out-of-range indices clamp to the buffer, exactly as in
Python). -/
def pySlice (l : List Int) (start stop : Int) : List Int :=
  (l.take stop.toNat).drop start.toNat

/-- Lines 171-172: `invert_bits(buf)` returns `bytes((~b) & 0xFF for b in buf)`.
For a Python integer `b`, `~b` is `-(b+1)` and `& 0xFF` is `% 256`
(Python `%`, like Lean's `Int.emod`, is non-negative for a positive
modulus). -/
def invert_bits (buf : List Int) : List Int :=
  buf.map fun b => (-(b + 1)) % 256

/-- A band as yielded by `build_raster_bands.iter_bands`
(line 196: `yield (y, slice_h, header, memoryview(raw_bytes)[start:end])`). -/
structure Band where
  y : Int
  slice_h : Int
  header : List Int
  block : List Int
deriving DecidableEq, Repr

/-- Lines 186-197: the `iter_bands` generator. Starting at row `y`, while
`y < height` it emits a band of `slice_h = min(255, height - y)` rows with
the GS v 0 header (`width_bytes` and `slice_h` each encoded as two
little-endian bytes via `& 0xFF` / `>> 8`), whose payload is the slice
`raw_bytes[y*width_bytes : (y+slice_h)*width_bytes]`. -/
def iter_bands (width_bytes : Nat) (height : Int) (raw_bytes : List Int) (y : Int) :
    List Band :=
  if h : y < height then
    let slice_h : Int := min 255 (height - y)
    let header : List Int :=
      [0x1d, 0x76, 0x30, 0x00,
       (width_bytes : Int) % 256, ((width_bytes : Int) / 256) % 256,
       slice_h % 256, (slice_h / 256) % 256]
    let start : Int := y * (width_bytes : Int)
    let stop : Int := start + slice_h * (width_bytes : Int)
    { y := y, slice_h := slice_h, header := header,
      block := pySlice raw_bytes start stop } ::
      iter_bands width_bytes height raw_bytes (y + slice_h)
  else []
termination_by (height - y).toNat
decreasing_by
  simp_wf
  omega

/-- Lines 175-200: `build_raster_bands(img1, raw_bytes, invert, limit_lines)`.
`width_bytes = (img1.width + 7) // 8`; the effective height is
`img1.height if not limit_lines else min(limit_lines, img1.height)`
(Python truthiness: `None` and `0` are falsy, every other integer —
negative ones included — is truthy); if `invert` the whole buffer is
complemented before banding. Returns `(width_bytes, height, bands)` with
the band sequence already materialised (the Python generator is finite
and restartable, so the list of its yields is its semantics). -/
def build_raster_bands (img1 : Img1) (raw_bytes : List Int) (invert : Bool)
    (limit_lines : Option Int) : Nat × Int × List Band :=
  let width_bytes := (img1.width + 7) / 8
  let height : Int :=
    match limit_lines with
    | none => (img1.height : Int)
    | some l => if l = 0 then (img1.height : Int) else min l (img1.height : Int)
  let raw := if invert then invert_bits raw_bytes else raw_bytes
  (width_bytes, height, iter_bands width_bytes height raw 0)

/-- The successive payload slices `block[sent:sent+chunk]` written by the
inner loop of `send_raster` (lines 225-229) when every `ser.write` reports
the full requested length, so that `sent` advances by exactly one chunk per
sub-write. A non-positive `chunk` yields empty slices and hence no
progress; the list is left empty in that degenerate case. -/
def subWrites (block : List Int) (chunk : Int) : List (List Int) :=
  if h : chunk ≤ 0 ∨ block = [] then []
  else block.take chunk.toNat :: subWrites (block.drop chunk.toNat) chunk
termination_by block.length
decreasing_by
  simp_wf
  rcases block with _ | ⟨b, bs⟩
  · simp at h
  · simp
    omega

/-- Lines 203-237: the byte trace `send_raster` writes to the serial
connection when transmission succeeds (every sub-write reports its full
requested length): `ESC @`, `ESC 2`, then for each band its header followed
by the chunked payload, then the trailing feed `\n\n\n` and the partial cut
`GS V 01`. -/
def send_raster_stream (img1 : Img1) (raw_bytes : List Int) (invert : Bool)
    (limit_lines : Option Int) (chunk : Int) : List Int :=
  let bands := (build_raster_bands img1 raw_bytes invert limit_lines).2.2
  [0x1b, 0x40] ++ [0x1b, 0x32] ++
    (bands.map fun b => b.header ++ (subWrites b.block chunk).flatten).flatten ++
    [0x0a, 0x0a, 0x0a] ++ [0x1d, 0x56, 0x01]

/-- Lines 240-254: the byte stream `write_raster_to_file` writes to the
output file: `ESC @`, `ESC 2`, each band's header followed by its whole
payload in one write, then the single write `\n\n\n\x1dV\x01`. -/
def write_raster_to_file_stream (img1 : Img1) (raw_bytes : List Int) (invert : Bool)
    (limit_lines : Option Int) : List Int :=
  let bands := (build_raster_bands img1 raw_bytes invert limit_lines).2.2
  [0x1b, 0x40] ++ [0x1b, 0x32] ++
    (bands.map fun b => b.header ++ b.block).flatten ++
    [0x0a, 0x0a, 0x0a, 0x1d, 0x56, 0x01]

/-- Lines 224-229: the inner chunk loop of `send_raster` for one band
payload of length `L`, driven by an oracle `resp` giving the value each
`ser.write(block[sent:sent+chunk])` call returns (`none` models a call
returning Python `None`, `some n` a call returning the byte count `n`).
`k` counts sub-write calls made so far, `sent` is the running byte total,
and `fuel` bounds the number of iterations so the embedding stays total:
`none` means the loop has neither finished nor raised within `fuel`
iterations, `some (Except.error ())` that it raised
`serial.SerialTimeoutException`, and `some (Except.ok kNew)` that it
finished with `kNew` sub-write calls consumed. -/
def payloadLoop (resp : Nat → Option Nat) (L : Nat) : Nat → Nat → Nat →
    Option (Except Unit Nat)
  | k, sent, 0 => if sent < L then none else some (Except.ok k)
  | k, sent, fuel + 1 =>
    if sent < L then
      match resp k with
      | none => some (Except.error ())
      | some n => payloadLoop resp L (k + 1) (sent + n) fuel
    else some (Except.ok k)

/-- Outcome of the band loop of `send_raster` (lines 220-232):
`headersWritten` counts the `ser.write(header)` calls performed before the
loop ended. -/
inductive TxResult where
  | ok
  | writeTimeout (headersWritten : Nat)
  | fuelOut (headersWritten : Nat)
deriving DecidableEq, Repr

/-- Lines 220-232: the band loop of `send_raster` over the payload lengths
of the remaining bands. Each band's header is written, then its payload
goes through `payloadLoop`; an `Except.error` there is the raised
`SerialTimeoutException`, which propagates immediately — no retry, no
further band. -/
def sendBandsLoop (resp : Nat → Option Nat) (fuel : Nat) :
    Nat → Nat → List Nat → TxResult
  | _, _, [] => TxResult.ok
  | k, written, L :: rest =>
    match payloadLoop resp L k 0 fuel with
    | none => TxResult.fuelOut (written + 1)
    | some (Except.error _) => TxResult.writeTimeout (written + 1)
    | some (Except.ok kNew) => sendBandsLoop resp fuel kNew (written + 1) rest

/-- Line 149 of `prepare_image`, no-dither branch: the point map
`lambda p: 0 if p < th else 255` applied to every grayscale pixel. -/
def point_threshold (th : Int) (p : Int) : Int :=
  if p < th then 0 else 255

/-- The final `convert('1', dither=DITHER_NONE)` of line 149. PIL converts
mode L to mode 1 without dithering by mapping a pixel to white (bit 1)
exactly when its value is at least 128, black (bit 0) otherwise; `true`
models a white bit. -/
def convert1_nodither (v : Int) : Bool :=
  128 ≤ v

/-- Lines 108-113: `apply_gamma(imgL, gamma)` returns `imgL` unchanged when
`abs(gamma - 1.0) < 1e-3` and otherwise maps the gamma lookup table over
the image. The table's entries involve floating-point `**`, which the
claims never evaluate, so the point map is abstracted as a parameter
`gammaPoint`. Scalars are modelled as exact rationals; the claims are
about the exact value 1.0, where float and rational arithmetic agree. -/
def apply_gamma (gammaPoint : ℚ → Int → Int) (imgL : List Int) (gamma : ℚ) : List Int :=
  if |gamma - 1| < 1 / 1000 then imgL else imgL.map (gammaPoint gamma)

/-- Lines 139-141 of `prepare_image`: the contrast enhancement is applied
only when `abs(contrast - 1.0) > 1e-3`, then `apply_gamma` runs. `enhance`
abstracts `ImageEnhance.Contrast(imgL).enhance(contrast)`. -/
def contrast_gamma_stage (enhance : ℚ → List Int → List Int)
    (gammaPoint : ℚ → Int → Int) (imgL : List Int) (contrast gamma : ℚ) : List Int :=
  apply_gamma gammaPoint
    (if |contrast - 1| > 1 / 1000 then enhance contrast imgL else imgL) gamma

/-- Little-endian 16-bit encoding of an integer, as the spec describes the
two length fields of the raster header (the low byte then the high byte). -/
def le16 (n : Int) : List Int :=
  [n % 256, (n / 256) % 256]

deriving instance DecidableEq for Except

section Lemmas

/-- Dropping `a` of the first `b` elements and then the rest from `b` on is
the same as dropping `a` of the whole, provided `a ≤ b`. -/
lemma drop_take_append_drop (m : List Int) :
    ∀ a b : Nat, a ≤ b → (m.take b).drop a ++ m.drop b = m.drop a := by
  induction m with
  | nil => intro a b _; simp
  | cons x xs ih =>
    intro a b hab
    cases a with
    | zero => simp [List.take_append_drop]
    | succ a =>
      cases b with
      | zero => omega
      | succ b =>
        simp only [List.take_succ_cons, List.drop_succ_cons]
        exact ih a b (by omega)

/-- Concatenating two adjacent `pySlice` windows of the same buffer. -/
lemma pySlice_glue (l : List Int) (a b c : Nat) (hab : a ≤ b) (hbc : b ≤ c) :
    pySlice l (a : Int) (b : Int) ++ pySlice l (b : Int) (c : Int) =
      pySlice l (a : Int) (c : Int) := by
  simp only [pySlice, Int.toNat_natCast]
  have h1 : (l.take c).take b = l.take b := by
    rw [List.take_take, min_eq_left hbc]
  calc (l.take b).drop a ++ (l.take c).drop b
      = ((l.take c).take b).drop a ++ (l.take c).drop b := by rw [h1]
    _ = (l.take c).drop a := drop_take_append_drop (l.take c) a b hab

lemma iter_bands_sum (wb : Nat) (height : Int) (raw : List Int) (y : Int) :
    ((iter_bands wb height raw y).map (fun b => b.slice_h)).sum = max 0 (height - y) := by
  induction y using iter_bands.induct wb height raw with
  | case1 y hy s ih =>
    have ih' : ((iter_bands wb height raw (y + min 255 (height - y))).map
        (fun b => b.slice_h)).sum = max 0 (height - (y + min 255 (height - y))) := ih
    rw [iter_bands]
    simp only [dif_pos hy, List.map_cons, List.sum_cons]
    rw [ih']
    omega
  | case2 y hy =>
    rw [iter_bands]
    simp only [dif_neg hy, List.map_nil, List.sum_nil]
    omega

/-- Per-band facts: every band yielded from start row `y` lies in
`[y, height)`, has the row count `min(255, height - band.y)`, and carries
the header and payload slice built at lines 190-196. -/
lemma iter_bands_mem (wb : Nat) (height : Int) (raw : List Int) (y : Int) :
    ∀ b ∈ iter_bands wb height raw y,
      y ≤ b.y ∧ b.y < height ∧ b.slice_h = min 255 (height - b.y) ∧
      b.header = [0x1d, 0x76, 0x30, 0x00,
        (wb : Int) % 256, ((wb : Int) / 256) % 256,
        b.slice_h % 256, (b.slice_h / 256) % 256] ∧
      b.block = pySlice raw (b.y * (wb : Int)) (b.y * (wb : Int) + b.slice_h * (wb : Int)) := by
  induction y using iter_bands.induct wb height raw with
  | case1 y hy s ih =>
    have ih' : ∀ b ∈ iter_bands wb height raw (y + min 255 (height - y)),
        y + min 255 (height - y) ≤ b.y ∧ b.y < height ∧
        b.slice_h = min 255 (height - b.y) ∧
        b.header = [0x1d, 0x76, 0x30, 0x00,
          (wb : Int) % 256, ((wb : Int) / 256) % 256,
          b.slice_h % 256, (b.slice_h / 256) % 256] ∧
        b.block = pySlice raw (b.y * (wb : Int))
          (b.y * (wb : Int) + b.slice_h * (wb : Int)) := ih
    rw [iter_bands]
    simp only [dif_pos hy, List.mem_cons]
    rintro b (rfl | hb)
    · refine ⟨le_refl _, hy, rfl, rfl, rfl⟩
    · obtain ⟨h1, h2, h3, h4, h5⟩ := ih' b hb
      exact ⟨by omega, h2, h3, h4, h5⟩
  | case2 y hy =>
    rw [iter_bands]
    simp only [dif_neg hy]
    intro b hb
    exact absurd hb (List.not_mem_nil b)

/-- Band start rows are strictly increasing along the sequence. -/
lemma iter_bands_pairwise (wb : Nat) (height : Int) (raw : List Int) (y : Int) :
    (iter_bands wb height raw y).Pairwise (fun a b => a.y < b.y) := by
  induction y using iter_bands.induct wb height raw with
  | case1 y hy s ih =>
    have ih' : (iter_bands wb height raw (y + min 255 (height - y))).Pairwise
        (fun a b => a.y < b.y) := ih
    rw [iter_bands]
    simp only [dif_pos hy]
    refine List.Pairwise.cons ?_ ih'
    intro b hb
    have := (iter_bands_mem wb height raw (y + min 255 (height - y)) b hb).1
    simp only
    omega
  | case2 y hy =>
    rw [iter_bands]
    simp only [dif_neg hy]
    exact List.Pairwise.nil

end Lemmas

section Lemmas2

lemma iter_bands_eq_nil_iff (wb : Nat) (height : Int) (raw : List Int) (y : Int) :
    iter_bands wb height raw y = [] ↔ ¬ y < height := by
  constructor
  · intro h hy
    rw [iter_bands] at h
    simp only [dif_pos hy] at h
    exact List.cons_ne_nil _ _ h
  · intro h
    rw [iter_bands]
    simp only [dif_neg h]

/-- The first band yielded from start row `y` starts exactly at `y`. -/
lemma iter_bands_head (wb : Nat) (height : Int) (raw : List Int) (y : Int)
    (b : Band) (hb : (iter_bands wb height raw y).head? = some b) : b.y = y := by
  by_cases hy : y < height
  · rw [iter_bands] at hb
    simp only [dif_pos hy, List.head?_cons, Option.some_inj] at hb
    rw [← hb]
  · rw [iter_bands] at hb
    simp only [dif_neg hy, List.head?_nil] at hb
    exact absurd hb (Option.noConfusion)

/-- Consecutive bands are contiguous: each starts where the previous one
ended. -/
lemma iter_bands_chain (wb : Nat) (height : Int) (raw : List Int) (y : Int) :
    (iter_bands wb height raw y).Chain' (fun a b => b.y = a.y + a.slice_h) := by
  induction y using iter_bands.induct wb height raw with
  | case1 y hy s ih =>
    have ih' : (iter_bands wb height raw (y + min 255 (height - y))).Chain'
        (fun a b => b.y = a.y + a.slice_h) := ih
    rw [iter_bands]
    simp only [dif_pos hy]
    rw [List.chain'_cons']
    refine ⟨?_, ih'⟩
    intro b hb
    have := iter_bands_head wb height raw (y + min 255 (height - y)) b hb
    simp only
    omega
  | case2 y hy =>
    rw [iter_bands]
    simp only [dif_neg hy]
    exact List.chain'_nil

/-- Every band but the last one has exactly 255 rows. -/
lemma iter_bands_dropLast (wb : Nat) (height : Int) (raw : List Int) (y : Int) :
    ∀ b ∈ (iter_bands wb height raw y).dropLast, b.slice_h = 255 := by
  induction y using iter_bands.induct wb height raw with
  | case1 y hy s ih =>
    have ih' : ∀ b ∈ (iter_bands wb height raw (y + min 255 (height - y))).dropLast,
        b.slice_h = 255 := ih
    rw [iter_bands]
    simp only [dif_pos hy]
    by_cases hrest : y + min 255 (height - y) < height
    · obtain ⟨b', l', hl⟩ :=
        List.exists_cons_of_ne_nil
          ((not_iff_not.mpr (iter_bands_eq_nil_iff wb height raw
            (y + min 255 (height - y)))).mpr (not_not_intro hrest))
      rw [hl]
      rw [List.dropLast_cons₂]
      intro b hb
      rcases List.mem_cons.mp hb with rfl | hb'
      · simp only
        omega
      · exact ih' b (by rw [hl]; exact hb')
    · rw [(iter_bands_eq_nil_iff wb height raw (y + min 255 (height - y))).mpr hrest]
      simp
  | case2 y hy =>
    rw [iter_bands]
    simp only [dif_neg hy]
    simp

/-- The concatenation of the payload slices from start row `y` (for
`0 ≤ y`) is the buffer window covering rows `y` to the effective height. -/
lemma iter_bands_blocks (wb : Nat) (height : Int) (raw : List Int) (y : Int) :
    0 ≤ y →
    ((iter_bands wb height raw y).map (fun b => b.block)).flatten =
      pySlice raw (y * (wb : Int)) (max y height * (wb : Int)) := by
  induction y using iter_bands.induct wb height raw with
  | case1 y hy s ih =>
    intro hy0
    have ih' : 0 ≤ y + min 255 (height - y) →
        ((iter_bands wb height raw (y + min 255 (height - y))).map
          (fun b => b.block)).flatten =
        pySlice raw ((y + min 255 (height - y)) * (wb : Int))
          (max (y + min 255 (height - y)) height * (wb : Int)) := ih
    rw [iter_bands]
    simp only [dif_pos hy, List.map_cons, List.flatten_cons]
    rw [ih' (by omega)]
    have hmax1 : max (y + min 255 (height - y)) height = height := by omega
    have hmax2 : max y height = height := by omega
    rw [hmax1, hmax2]
    have e1 : y * (wb : Int) + min 255 (height - y) * (wb : Int) =
        (y + min 255 (height - y)) * (wb : Int) := by ring
    rw [e1]
    have h0y : (0:Int) ≤ y * (wb : Int) := by positivity
    have hyz : y * (wb : Int) ≤ (y + min 255 (height - y)) * (wb : Int) := by
      have : (0:Int) ≤ min 255 (height - y) := by omega
      nlinarith [Int.natCast_nonneg wb]
    have hzh : (y + min 255 (height - y)) * (wb : Int) ≤ height * (wb : Int) := by
      have : y + min 255 (height - y) ≤ height := by omega
      exact mul_le_mul_of_nonneg_right this (Int.natCast_nonneg wb)
    obtain ⟨a, ha⟩ := Int.eq_ofNat_of_zero_le h0y
    obtain ⟨b, hbnd⟩ := Int.eq_ofNat_of_zero_le (le_trans h0y hyz)
    obtain ⟨c, hc⟩ := Int.eq_ofNat_of_zero_le (le_trans (le_trans h0y hyz) hzh)
    rw [ha, hbnd, hc]
    exact pySlice_glue raw a b c (by omega) (by omega)
  | case2 y hy =>
    intro hy0
    rw [iter_bands]
    simp only [dif_neg hy, List.map_nil, List.flatten_nil]
    have hmax : max y height = y := by omega
    rw [hmax, pySlice]
    rw [List.drop_eq_nil_iff.mpr]
    have := List.length_take_le (y * (wb : Int)).toNat raw
    exact le_trans (List.length_take_le _ _) (le_refl _)

end Lemmas2

section Lemmas3

/-- With a positive chunk size, the successful sub-writes of a payload
concatenate back to the payload (Scenario D of the spec, for any size). -/
lemma subWrites_flatten (block : List Int) (chunk : Int) (hc : 0 < chunk) :
    (subWrites block chunk).flatten = block := by
  induction block, chunk using subWrites.induct with
  | case1 block chunk h =>
    rcases h with h | rfl
    · omega
    · rw [subWrites]
      simp
  | case2 block chunk h ih =>
    rw [subWrites]
    rw [dif_neg h]
    simp only [List.flatten_cons]
    rw [ih hc]
    exact List.take_append_drop _ _

/-- A sub-write reporting zero bytes leaves `sent` unchanged: the loop
re-issues the same slice and never raises, whatever the fuel. -/
lemma payloadLoop_zero_resp (L k sent fuel : Nat) :
    payloadLoop (fun _ => some 0) L k sent fuel ≠ some (Except.error ()) := by
  induction fuel generalizing k sent with
  | zero =>
    rw [payloadLoop]
    split
    · exact Option.noConfusion
    · intro h
      exact Except.noConfusion (Option.some_inj.mp h)
  | succ fuel ih =>
    rw [payloadLoop]
    split
    · exact ih (k + 1) (sent + 0)
    · intro h
      exact Except.noConfusion (Option.some_inj.mp h)

/-- Unfolding of `build_raster_bands` used to settle the claims. -/
lemma build_raster_bands_def (img1 : Img1) (raw_bytes : List Int) (invert : Bool)
    (limit_lines : Option Int) :
    build_raster_bands img1 raw_bytes invert limit_lines =
      ((img1.width + 7) / 8,
       (match limit_lines with
        | none => (img1.height : Int)
        | some l => if l = 0 then (img1.height : Int) else min l (img1.height : Int)),
       iter_bands ((img1.width + 7) / 8)
         (match limit_lines with
          | none => (img1.height : Int)
          | some l => if l = 0 then (img1.height : Int) else min l (img1.height : Int))
         (if invert then invert_bits raw_bytes else raw_bytes) 0) := rfl

end Lemmas3

/-- C7: in the no-dither binarization path, for every grayscale pixel value
p and threshold t, the pixel becomes black (packed bit 0, modelled as
`false`) exactly when p < t and white otherwise; with threshold 128 a pixel
of luminance 100 encodes black and one of luminance 200 encodes white. -/
theorem c7_threshold_black_iff (p th : Int) :
    convert1_nodither (point_threshold th p) = false ↔ p < th := by
  unfold convert1_nodither point_threshold
  split
  · simp
    omega
  · simp
    omega

/-- C8: invert_bits is an involution on byte buffers — applying it twice
returns a buffer bit-for-bit equal to the original, and it always preserves
length. -/
theorem c8_invert_involutive (buf : List Int) (hbyte : ∀ b ∈ buf, 0 ≤ b ∧ b < 256) :
    invert_bits (invert_bits buf) = buf ∧ (invert_bits buf).length = buf.length := by
  constructor
  · induction buf with
    | nil => rfl
    | cons x xs ih =>
      have hx := hbyte x (List.mem_cons_self x xs)
      have hxs : ∀ b ∈ xs, 0 ≤ b ∧ b < 256 := fun b hb => hbyte b (List.mem_cons_of_mem x hb)
      have hih := ih hxs
      simp only [invert_bits, List.map_cons] at hih ⊢
      rw [hih]
      simp only [List.cons.injEq]
      exact ⟨by omega, trivial⟩
  · simp [invert_bits]

/-- Witness for C8 at the concrete buffer 00 01 FE FF. -/
theorem c8_invert_involutive_witness :
    (∀ b ∈ [(0 : Int), 1, 254, 255], 0 ≤ b ∧ b < 256) ∧
    invert_bits (invert_bits [(0 : Int), 1, 254, 255]) = [(0 : Int), 1, 254, 255] := by
  refine ⟨by decide, (c8_invert_involutive [(0 : Int), 1, 254, 255] (by decide)).1⟩

/-- C9: with contrast exactly 1.0 and gamma exactly 1.0, the contrast
enhancement and the gamma lookup are both skipped, so the stage returns its
input unchanged, whatever the two point operations would have computed. -/
theorem c9_contrast_gamma_noop (enhance : ℚ → List Int → List Int)
    (gammaPoint : ℚ → Int → Int) (imgL : List Int) :
    contrast_gamma_stage enhance gammaPoint imgL 1 1 = imgL := by
  unfold contrast_gamma_stage apply_gamma
  norm_num

/-- Counterexample to C2 as stated: with `limit_lines = -1` on a 5-row
bitmap the code computes `min(-1, 5) = -1` as the effective height, not the
height 5 the claim predicts for a negative row limit. -/
theorem c2_counterexample :
    (build_raster_bands ⟨8, 5⟩ (List.replicate 5 0) false (some (-1))).2.1 = -1 ∧
    ((-1 : Int) ≠ 5) := by
  constructor
  · rw [build_raster_bands_def]
    norm_num
  · decide

/-- C2 amended: the effective height equals the bitmap height when the row
limit is absent or zero, and equals min(row_limit, height) whenever the row
limit is any nonzero integer (for a negative limit this is the negative
limit itself, not the height). -/
theorem c2_effective_height (img1 : Img1) (raw : List Int) (invert : Bool) (l : Int) :
    (build_raster_bands img1 raw invert none).2.1 = img1.height ∧
    (build_raster_bands img1 raw invert (some 0)).2.1 = img1.height ∧
    (l ≠ 0 → (build_raster_bands img1 raw invert (some l)).2.1 = min l img1.height) := by
  refine ⟨rfl, by rw [build_raster_bands_def]; norm_num, ?_⟩
  intro hl
  rw [build_raster_bands_def]
  simp [hl]

/-- Witness for C2 at a positive row limit 3 on a 5-row bitmap. -/
theorem c2_effective_height_witness :
    ((3 : Int) ≠ 0) ∧
    (build_raster_bands ⟨8, 5⟩ (List.replicate 5 0) false (some 3)).2.1 = min 3 (5 : Int) := by
  exact ⟨by decide, (c2_effective_height ⟨8, 5⟩ (List.replicate 5 0) false 3).2.2 (by decide)⟩

/-- Counterexample to C1 as stated: with `limit_lines = -1` on a 5-row
bitmap the band sequence is empty, so the band row counts sum to 0 while
the effective height returned alongside them is -1. -/
theorem c1_counterexample :
    (((build_raster_bands ⟨8, 5⟩ (List.replicate 5 0) false (some (-1))).2.2.map
      (fun b => b.slice_h)).sum = 0) ∧
    (build_raster_bands ⟨8, 5⟩ (List.replicate 5 0) false (some (-1))).2.1 = -1 ∧
    ((0 : Int) ≠ -1) := by
  refine ⟨?_, by rw [build_raster_bands_def]; norm_num, by decide⟩
  rw [build_raster_bands_def]
  simp only
  rw [iter_bands]
  norm_num

/-- C1 amended: for every bitmap and every setting of invert and row_limit,
the band row counts sum to the effective height clamped below at zero
(equal to the effective height whenever it is non-negative, in particular
for every non-negative row limit), no band's row count exceeds 255, and
bands appear in strictly increasing start-row order. -/
theorem c1_bands_partition (img1 : Img1) (raw : List Int) (invert : Bool)
    (limit_lines : Option Int) :
    (((build_raster_bands img1 raw invert limit_lines).2.2.map
        (fun b => b.slice_h)).sum =
      max 0 (build_raster_bands img1 raw invert limit_lines).2.1) ∧
    (∀ b ∈ (build_raster_bands img1 raw invert limit_lines).2.2, b.slice_h ≤ 255) ∧
    (build_raster_bands img1 raw invert limit_lines).2.2.Pairwise
      (fun a b => a.y < b.y) := by
  rw [build_raster_bands_def]
  refine ⟨?_, ?_, ?_⟩
  · dsimp only
    rw [iter_bands_sum]
    omega
  · intro b hb
    have := (iter_bands_mem _ _ _ _ b hb).2.2.1
    omega
  · exact iter_bands_pairwise _ _ _ _

/-- Counterexample to C3 as stated: in the chunk loop only a sub-write
returning None raises; a sub-write that reports zero bytes written leaves
`sent` unchanged and the loop silently re-issues the same slice — after 100
iterations of zero-progress writes on a 3-byte payload nothing has been
raised (the loop would spin forever), whereas the oracle returning None
raises at once. -/
theorem c3_counterexample :
    payloadLoop (fun _ => some 0) 3 0 0 100 = none ∧
    payloadLoop (fun _ => some 0) 3 0 0 100 ≠ some (Except.error ()) ∧
    payloadLoop (fun _ => Option.none) 3 0 0 100 = some (Except.error ()) := by
  refine ⟨by decide, payloadLoop_zero_resp 3 0 0 100, by decide⟩

/-- C3 amended: a sub-write that returns None (no byte count) raises
WriteTimeoutError — in particular the first sub-write of a band with a
non-empty payload does so — and once the payload loop of a band raises, the
transmission ends with only that band's header written: no retry of the
failed band, and no subsequent band is sent, whatever bands remain. -/
theorem c3_write_none_aborts (resp : Nat → Option Nat) (k written fuel L : Nat)
    (rest : List Nat) :
    (resp k = none → 0 < L → payloadLoop resp L k 0 (fuel + 1) = some (Except.error ())) ∧
    (payloadLoop resp L k 0 fuel = some (Except.error ()) →
      sendBandsLoop resp fuel k written (L :: rest) = TxResult.writeTimeout (written + 1)) := by
  constructor
  · intro hk hL
    rw [payloadLoop]
    rw [if_pos hL, hk]
  · intro herr
    rw [sendBandsLoop]
    rw [herr]

/-- Witness for C3: an oracle whose every write returns None, a first band
of 2 payload bytes and a pending band of 3; the first sub-write raises and
the transmission stops with one header written. -/
theorem c3_write_none_aborts_witness :
    payloadLoop (fun _ => Option.none) 2 0 0 4 = some (Except.error ()) ∧
    sendBandsLoop (fun _ => Option.none) 4 0 0 [2, 3] = TxResult.writeTimeout 1 := by
  refine ⟨(c3_write_none_aborts (fun _ => Option.none) 0 0 3 2 [3]).1 rfl (by norm_num), ?_⟩
  exact (c3_write_none_aborts (fun _ => Option.none) 0 0 4 2 [3]).2
    ((c3_write_none_aborts (fun _ => Option.none) 0 0 3 2 [3]).1 rfl (by norm_num))

section StreamLemmas

/-- With a positive chunk size the serial trace collapses to the unchunked
ESC/POS stream. -/
lemma send_raster_stream_eq (img1 : Img1) (raw : List Int) (invert : Bool)
    (limit_lines : Option Int) (chunk : Int) (hc : 0 < chunk) :
    send_raster_stream img1 raw invert limit_lines chunk =
      [0x1b, 0x40, 0x1b, 0x32] ++
        (((build_raster_bands img1 raw invert limit_lines).2.2).map
          (fun b => b.header ++ b.block)).flatten ++
        [0x0a, 0x0a, 0x0a] ++ [0x1d, 0x56, 0x01] := by
  unfold send_raster_stream
  dsimp only
  have hmap : ((build_raster_bands img1 raw invert limit_lines).2.2).map
      (fun b => b.header ++ (subWrites b.block chunk).flatten) =
      ((build_raster_bands img1 raw invert limit_lines).2.2).map
      (fun b => b.header ++ b.block) := by
    refine List.map_congr_left ?_
    intro b _
    rw [subWrites_flatten b.block chunk hc]
  rw [hmap]
  simp

/-- The file trace likewise. -/
lemma write_raster_to_file_stream_eq (img1 : Img1) (raw : List Int) (invert : Bool)
    (limit_lines : Option Int) :
    write_raster_to_file_stream img1 raw invert limit_lines =
      [0x1b, 0x40, 0x1b, 0x32] ++
        (((build_raster_bands img1 raw invert limit_lines).2.2).map
          (fun b => b.header ++ b.block)).flatten ++
        [0x0a, 0x0a, 0x0a] ++ [0x1d, 0x56, 0x01] := by
  unfold write_raster_to_file_stream
  simp

end StreamLemmas

/-- C4: for identical inputs (same 1-bit image bytes, same invert flag,
same row limit) and any positive chunk size, the byte stream written by
write_raster_to_file is byte-for-byte the concatenation of everything
send_raster writes to the serial connection — init, line-spacing, each
band's header then payload, trailing feed, partial cut. -/
theorem c4_file_serial_equal (img1 : Img1) (raw : List Int) (invert : Bool)
    (limit_lines : Option Int) (chunk : Int) (hc : 0 < chunk) :
    send_raster_stream img1 raw invert limit_lines chunk =
      write_raster_to_file_stream img1 raw invert limit_lines := by
  rw [send_raster_stream_eq img1 raw invert limit_lines chunk hc,
    write_raster_to_file_stream_eq img1 raw invert limit_lines]

/-- Witness for C4 on a 2-row, 8-pixel-wide bitmap with chunk size 1. -/
theorem c4_file_serial_equal_witness :
    ((0 : Int) < 1) ∧
    send_raster_stream ⟨8, 2⟩ [5, 6] false none 1 =
      write_raster_to_file_stream ⟨8, 2⟩ [5, 6] false none := by
  exact ⟨by norm_num, c4_file_serial_equal ⟨8, 2⟩ [5, 6] false none 1 (by norm_num)⟩

/-- Counterexample to C5 as stated: on an empty band sequence the serial
sink's trace ends with three 0A bytes before the partial cut (line 234
writes three newline bytes), not the two bytes the claim asserts. -/
theorem c5_counterexample :
    send_raster_stream ⟨8, 0⟩ [] false none 1 =
      [0x1b, 0x40, 0x1b, 0x32, 0x0a, 0x0a, 0x0a, 0x1d, 0x56, 0x01] ∧
    ([0x1b, 0x40, 0x1b, 0x32, 0x0a, 0x0a, 0x0a, 0x1d, 0x56, 0x01] : List Int) ≠
      [0x1b, 0x40, 0x1b, 0x32, 0x0a, 0x0a, 0x1d, 0x56, 0x01] := by
  constructor
  · unfold send_raster_stream
    rw [build_raster_bands_def]
    dsimp only
    rw [iter_bands]
    norm_num
  · decide

/-- C5 amended: after the last band both sinks write the same trailing
feed of exactly the bytes 0A 0A 0A before the partial-cut command 1D 56 01
(the two-byte feed 0A 0A appears only in cancel_and_reset, not in either
raster sink). -/
theorem c5_trailing_feed (img1 : Img1) (raw : List Int) (invert : Bool)
    (limit_lines : Option Int) (chunk : Int) (hc : 0 < chunk) :
    send_raster_stream img1 raw invert limit_lines chunk =
      [0x1b, 0x40, 0x1b, 0x32] ++
        (((build_raster_bands img1 raw invert limit_lines).2.2).map
          (fun b => b.header ++ b.block)).flatten ++
        [0x0a, 0x0a, 0x0a] ++ [0x1d, 0x56, 0x01] ∧
    write_raster_to_file_stream img1 raw invert limit_lines =
      [0x1b, 0x40, 0x1b, 0x32] ++
        (((build_raster_bands img1 raw invert limit_lines).2.2).map
          (fun b => b.header ++ b.block)).flatten ++
        [0x0a, 0x0a, 0x0a] ++ [0x1d, 0x56, 0x01] := by
  exact ⟨send_raster_stream_eq img1 raw invert limit_lines chunk hc,
    write_raster_to_file_stream_eq img1 raw invert limit_lines⟩

/-- Witness for C5 on the 2-row bitmap with chunk size 1. -/
theorem c5_trailing_feed_witness :
    ((0 : Int) < 1) ∧
    send_raster_stream ⟨8, 2⟩ [5, 6] false none 1 =
      [0x1b, 0x40, 0x1b, 0x32] ++
        (((build_raster_bands ⟨8, 2⟩ [5, 6] false none).2.2).map
          (fun b => b.header ++ b.block)).flatten ++
        [0x0a, 0x0a, 0x0a] ++ [0x1d, 0x56, 0x01] := by
  exact ⟨by norm_num, (c5_trailing_feed ⟨8, 2⟩ [5, 6] false none 1 (by norm_num)).1⟩

/-- C6: every band's header is exactly 1D 76 30 00 followed by the
little-endian 16-bit encodings of row_byte_width and of the band's row
count, where row_byte_width = (width + 7) / 8 is the ceiling of width / 8
(the two inequality conjuncts pin it as the least byte count covering the
pixel width). -/
theorem c6_band_header (img1 : Img1) (raw : List Int) (invert : Bool)
    (limit_lines : Option Int) (b : Band)
    (hb : b ∈ (build_raster_bands img1 raw invert limit_lines).2.2) :
    b.header = [0x1d, 0x76, 0x30, 0x00] ++
      le16 (((img1.width + 7) / 8 : Nat) : Int) ++ le16 b.slice_h ∧
    (build_raster_bands img1 raw invert limit_lines).1 = (img1.width + 7) / 8 ∧
    img1.width ≤ 8 * ((img1.width + 7) / 8) ∧
    8 * ((img1.width + 7) / 8) < img1.width + 8 := by
  rw [build_raster_bands_def] at hb
  dsimp only at hb
  have hmem := (iter_bands_mem _ _ _ _ b hb).2.2.2.1
  refine ⟨?_, rfl, by omega, by omega⟩
  rw [hmem]
  simp [le16]

/-- Witness for C6: a 10-pixel-wide, 1-row bitmap; its single band carries
the header 1D 76 30 00 02 00 01 00. -/
theorem c6_band_header_witness :
    ((⟨0, 1, [0x1d, 0x76, 0x30, 0x00, 2, 0, 1, 0], [9, 7]⟩ : Band) ∈
      (build_raster_bands ⟨10, 1⟩ [9, 7] false none).2.2) ∧
    (⟨0, 1, [0x1d, 0x76, 0x30, 0x00, 2, 0, 1, 0], [9, 7]⟩ : Band).header =
      [0x1d, 0x76, 0x30, 0x00] ++ le16 ((((10 : Nat) + 7) / 8 : Nat) : Int) ++
        le16 (1 : Int) := by
  have hmem : (⟨0, 1, [0x1d, 0x76, 0x30, 0x00, 2, 0, 1, 0], [9, 7]⟩ : Band) ∈
      (build_raster_bands ⟨10, 1⟩ [9, 7] false none).2.2 := by
    rw [build_raster_bands_def]
    dsimp only
    rw [iter_bands]
    norm_num [pySlice]
  exact ⟨hmem, (c6_band_header ⟨10, 1⟩ [9, 7] false none _ hmem).1⟩

/-- C10: with a positive effective height the band sequence is non-empty,
every band except the final one has exactly 255 rows, each band starts at
the row just after the previous band's last row, and the band payloads
concatenate to the first effective_height * row_byte_width bytes of the
(possibly inverted) bitmap buffer. -/
theorem c10_band_structure (img1 : Img1) (raw : List Int) (invert : Bool)
    (limit_lines : Option Int)
    (hpos : 0 < (build_raster_bands img1 raw invert limit_lines).2.1) :
    (build_raster_bands img1 raw invert limit_lines).2.2 ≠ [] ∧
    (∀ b ∈ (build_raster_bands img1 raw invert limit_lines).2.2.dropLast,
      b.slice_h = 255) ∧
    (build_raster_bands img1 raw invert limit_lines).2.2.Chain'
      (fun a b => b.y = a.y + a.slice_h) ∧
    ((build_raster_bands img1 raw invert limit_lines).2.2.map
        (fun b => b.block)).flatten =
      (if invert then invert_bits raw else raw).take
        ((build_raster_bands img1 raw invert limit_lines).2.1 *
          ((build_raster_bands img1 raw invert limit_lines).1 : Int)).toNat := by
  rw [build_raster_bands_def] at hpos ⊢
  dsimp only at hpos ⊢
  refine ⟨?_, iter_bands_dropLast _ _ _ _, iter_bands_chain _ _ _ _, ?_⟩
  · intro h
    rw [iter_bands_eq_nil_iff] at h
    omega
  · rw [iter_bands_blocks _ _ _ 0 (le_refl 0)]
    have hmax : max (0 : Int) _ = _ := max_eq_right (le_of_lt hpos)
    rw [hmax]
    rw [pySlice]
    simp

/-- Witness for C10 on an 8-pixel-wide, 3-row bitmap with no row limit. -/
theorem c10_band_structure_witness :
    (0 < (build_raster_bands ⟨8, 3⟩ [1, 2, 3] false none).2.1) ∧
    ((build_raster_bands ⟨8, 3⟩ [1, 2, 3] false none).2.2 ≠ [] ∧
    (∀ b ∈ (build_raster_bands ⟨8, 3⟩ [1, 2, 3] false none).2.2.dropLast,
      b.slice_h = 255) ∧
    (build_raster_bands ⟨8, 3⟩ [1, 2, 3] false none).2.2.Chain'
      (fun a b => b.y = a.y + a.slice_h) ∧
    ((build_raster_bands ⟨8, 3⟩ [1, 2, 3] false none).2.2.map
        (fun b => b.block)).flatten =
      (if false then invert_bits [1, 2, 3] else [1, 2, 3]).take
        ((build_raster_bands ⟨8, 3⟩ [1, 2, 3] false none).2.1 *
          ((build_raster_bands ⟨8, 3⟩ [1, 2, 3] false none).1 : Int)).toNat) := by
  have hpos : (0 : Int) < (build_raster_bands ⟨8, 3⟩ [1, 2, 3] false none).2.1 := by
    rw [build_raster_bands_def]
    norm_num
  exact ⟨hpos, c10_band_structure ⟨8, 3⟩ [1, 2, 3] false none hpos⟩
